import Mathlib

/-!
Verification of the encrypto client-side encrypted file storage UI.

The definitions below are a shallow embedding of the TypeScript sources:

* `src/unnamed/part_000` (the `FileUploader` component, second revision with
  the metadata envelope),
* `src/components/ui/FileList.tsx` (listing, download, delete, MIME table),
* `src/components/ui/ShareFilemodal.tsx` (share-link issuance).

JavaScript strings are modelled by `String`/`List Char`, byte buffers by
`List Nat` (each entry a byte value), `Date.now()` by a `Nat` millisecond
count, and the effectful handlers by pure functions that return an explicit
trace of observable events (state mutations, storage calls, browser save
actions).  The AES cipher from the external `crypto-js` package is kept
abstract: theorems that need it quantify over an encrypt/decrypt pair
together with its round-trip property.
-/

namespace Encrypto

/-! ## Naming scheme

`FileUploader.handleUpload` builds the storage key as the template literal
`Date.now() + "-" + file.name + ".encrypted"` (part_000, line 201).
`FileList.handleDownload` recovers the original name by
`fileName.split('-').slice(1).join('-').replace('.encrypted', '')`
(FileList.tsx, lines 114-118).  JavaScript `split` with a single-character
separator, `slice(1)`, `join` and first-occurrence `replace` are embedded
below on `List Char`. -/

/-- JavaScript `s.split(sep)` for a single-character separator: the list of
maximal separator-free groups; `"".split(sep)` is `[""]`. -/
def splitOnSep (sep : Char) : List Char → List (List Char)
  | [] => [[]]
  | c :: rest =>
    match splitOnSep sep rest with
    | [] => [[]]
    | g :: gs => if c = sep then [] :: g :: gs else (c :: g) :: gs

/-- JavaScript `groups.join(sep)` for a single-character separator. -/
def joinSep (sep : Char) : List (List Char) → List Char
  | [] => []
  | [g] => g
  | g :: gs => g ++ sep :: joinSep sep gs

/-- JavaScript `s.replace(pat, repl)` with a (nonempty) string pattern:
replaces only the first occurrence, leaves the string unchanged when the
pattern does not occur. -/
def replaceFirst (pat repl : List Char) : List Char → List Char
  | [] => []
  | c :: rest =>
    if pat.isPrefixOf (c :: rest) then repl ++ (c :: rest).drop pat.length
    else c :: replaceFirst pat repl rest

/-- The fixed `".encrypted"` suffix appended to every storage key. -/
def encSuffix : List Char := ".encrypted".data

/-- Storage-key construction from `FileUploader.handleUpload` (part_000,
line 201): the template literal `Date.now() + "-" + file.name + ".encrypted"`. -/
def makeKey (timestamp : Nat) (originalName : String) : String :=
  Nat.repr timestamp ++ "-" ++ originalName ++ ".encrypted"

/-- Original-name recovery from `FileList.handleDownload` (FileList.tsx,
lines 114-118): `fileName.split('-').slice(1).join('-').replace('.encrypted', '')`. -/
def parseOriginalName (storageKey : String) : String :=
  ⟨replaceFirst encSuffix [] (joinSep '-' ((splitOnSep '-' storageKey.data).drop 1))⟩

/-- Extension extraction from `FileList.handleDownload` (FileList.tsx, line
121): `originalFileName.split('.').pop()?.toLowerCase() || ''` — the last
`.`-separated segment, lowercased.  For a name containing a `.` this is
exactly the lowercased substring after the last `.`; for a name with no `.`
JavaScript `split('.').pop()` returns the whole name. -/
def extensionOf (name : String) : String :=
  ⟨((splitOnSep '.' name.data).getLastD []).map Char.toLower⟩

/-- The pair recovered by the download path from a storage key: original
file name (FileList.tsx, lines 114-118) and extension (line 121). -/
def parseKey (storageKey : String) : String × String :=
  let orig := parseOriginalName storageKey
  (orig, extensionOf orig)

/-! ## MIME table -/

/-- The literal object `mimeTypes` from `FileList.getMimeType`
(FileList.tsx, lines 151-161), as an association list. -/
def mimeTypes : List (String × String) :=
  [("pdf", "application/pdf"),
   ("doc", "application/msword"),
   ("docx", "application/vnd.openxmlformats-officedocument.wordprocessingml.document"),
   ("txt", "text/plain"),
   ("png", "image/png"),
   ("jpg", "image/jpeg"),
   ("jpeg", "image/jpeg"),
   ("gif", "image/gif")]

/-- A value the JavaScript expression `mimeTypes[extension]` can produce:
an own-property string of the object literal, or the truthy non-string
value (function or prototype object) inherited from `Object.prototype`
when `extension` names one of its members. -/
inductive JsValue where
  | str (s : String)
  | protoMember (name : String)
deriving DecidableEq

/-- The member names of `Object.prototype` that property lookup on a plain
object literal resolves through the prototype chain; each of their values
(a function, or for `__proto__` the prototype object itself) is truthy. -/
def objectProtoMembers : List String :=
  ["constructor", "__proto__", "toString", "toLocaleString", "valueOf",
   "hasOwnProperty", "isPrototypeOf", "propertyIsEnumerable",
   "__defineGetter__", "__defineSetter__", "__lookupGetter__", "__lookupSetter__"]

/-- `FileList.getMimeType` (FileList.tsx, lines 150-163):
`mimeTypes[extension] || 'application/octet-stream'`.  The object lookup
first finds the literal's own properties (the eight table entries, all
truthy strings), otherwise resolves through the prototype chain — for an
extension naming an `Object.prototype` member the inherited value is
truthy, so the `||` fallback does not fire and that inherited non-string
value is returned; only for all remaining extensions does the lookup yield
`undefined` and the fallback produce `application/octet-stream`. -/
def getMimeType (extension : String) : JsValue :=
  match mimeTypes.find? (fun p => p.fst = extension) with
  | some p => .str p.snd
  | none =>
    if extension ∈ objectProtoMembers then .protoMember extension
    else .str "application/octet-stream"

/-- Specification-side MIME resolution, written from the claim's words: the
table value for exactly the keys pdf, doc, docx, txt, png, jpg, jpeg, gif,
and `application/octet-stream` for every other extension. -/
def mimeSpec (e : String) : String :=
  if e = "pdf" then "application/pdf"
  else if e = "doc" then "application/msword"
  else if e = "docx" then "application/vnd.openxmlformats-officedocument.wordprocessingml.document"
  else if e = "txt" then "text/plain"
  else if e = "png" then "image/png"
  else if e = "jpg" then "image/jpeg"
  else if e = "jpeg" then "image/jpeg"
  else if e = "gif" then "image/gif"
  else "application/octet-stream"

/-! ## Base64 codec

The uploader produces base64 with Node's `Buffer.toString('base64')`
(canonical RFC 4648 with padding); the downloader decodes with the
browser's `atob`, which throws on characters outside the base64 alphabet —
modelled as `none`. -/

/-- The RFC 4648 base64 alphabet character for a sextet value. -/
def b64Char (n : Nat) : Char :=
  if n < 26 then Char.ofNat (65 + n)
  else if n < 52 then Char.ofNat (97 + (n - 26))
  else if n < 62 then Char.ofNat (48 + (n - 52))
  else if n = 62 then '+'
  else '/'

/-- Canonical padded base64 encoding of a byte list,
as produced by `Buffer.from(buffer).toString('base64')` (part_000, line 188). -/
def base64EncodeList : List Nat → List Char
  | [] => []
  | [b1] => [b64Char (b1 / 4), b64Char (b1 % 4 * 16), '=', '=']
  | [b1, b2] => [b64Char (b1 / 4), b64Char (b1 % 4 * 16 + b2 / 16), b64Char (b2 % 16 * 4), '=']
  | b1 :: b2 :: b3 :: rest =>
    b64Char (b1 / 4) :: b64Char (b1 % 4 * 16 + b2 / 16) ::
    b64Char (b2 % 16 * 4 + b3 / 64) :: b64Char (b3 % 64) :: base64EncodeList rest

/-- Base64 encoding as a `String`. -/
def base64Encode (bytes : List Nat) : String :=
  ⟨base64EncodeList bytes⟩

/-- The sextet value of a base64 alphabet character; `none` for any
character outside the alphabet (on which `atob` throws). -/
def b64Value (c : Char) : Option Nat :=
  if 'A' ≤ c ∧ c ≤ 'Z' then some (c.toNat - 65)
  else if 'a' ≤ c ∧ c ≤ 'z' then some (c.toNat - 97 + 26)
  else if '0' ≤ c ∧ c ≤ '9' then some (c.toNat - 48 + 52)
  else if c = '+' then some 62
  else if c = '/' then some 63
  else none

/-- Browser `atob` on a character list: decodes padded base64 four
characters at a time, `none` (a thrown `InvalidCharacterError`) on any
character outside the alphabet or on a malformed length. -/
def atobDecodeList : List Char → Option (List Nat)
  | [] => some []
  | [a, b, '=', '='] => do
    let x ← b64Value a
    let y ← b64Value b
    pure [x * 4 + y / 16]
  | [a, b, c, '='] => do
    let x ← b64Value a
    let y ← b64Value b
    let z ← b64Value c
    pure [x * 4 + y / 16, y % 16 * 16 + z / 4]
  | a :: b :: c :: d :: rest => do
    let x ← b64Value a
    let y ← b64Value b
    let z ← b64Value c
    let w ← b64Value d
    let tail ← atobDecodeList rest
    pure ((x * 4 + y / 16) :: (y % 16 * 16 + z / 4) :: (z % 4 * 64 + w) :: tail)
  | _ => none

/-- Browser `atob` on a `String` (FileList.tsx, line 107), as an `Option`
over byte lists. -/
def atobDecode (s : String) : Option (List Nat) :=
  atobDecodeList s.data

/-! ## Upload envelope

`FileUploader.handleUpload` (part_000, lines 177-194) base64-encodes the
file bytes and wraps them, together with the original MIME type and
extension, in the JSON object
`JSON.stringify(\x7bcontent, metadata: \x7boriginalType, originalExt\x7d\x7d)`
before encrypting.  Key order follows `JSON.stringify` on the literal
objects in the source; the embedding assumes the metadata strings contain
no characters that `JSON.stringify` would escape, which holds for every
allowed MIME type and for extensions of ordinary file names. -/

/-- Extension extraction in the uploader (part_000, line 178):
`file.name.split('.').pop() || ''` (not lowercased there). -/
def uploadFileExt (name : String) : String :=
  ⟨(splitOnSep '.' name.data).getLastD []⟩

/-- The exact string passed to `CryptoJS.AES.encrypt` (part_000, lines
181-192): the serialized `\x7bcontent, metadata\x7d` envelope. -/
def uploadDataToEncrypt (bytes : List Nat) (origType origExt : String) : String :=
  "\x7b\"content\":\"" ++ base64Encode bytes ++ "\",\"metadata\":\x7b\"originalType\":\"" ++
    origType ++ "\",\"originalExt\":\"" ++ origExt ++ "\"\x7d\x7d"

/-- The encrypted payload uploaded for one file (part_000, lines 177-194),
for an abstract cipher `enc` standing for `CryptoJS.AES.encrypt`. -/
def uploadPayload (enc : String → String → String)
    (bytes : List Nat) (fileType fileName password : String) : String :=
  enc (uploadDataToEncrypt bytes fileType (uploadFileExt fileName)) password

/-! ## Password policy

`validatePassword` is imported from `@/lib/utils`, which is not part of the
checked-in sources. -/

/-- Modelled from the spec: `validatePassword` (from `@/lib/utils`, absent
from `src/`) enforces the minimum-length policy — it accepts exactly the
passwords of at least 8 characters ("A global input gate rejects the entire
batch up front if no password is supplied or the password fails a
minimum-length policy (≥8 characters)"). -/
def validatePassword (password : String) : Bool :=
  password.length ≥ 8

/-! ## Download and delete handlers

`FileList.handleDownload` (FileList.tsx, lines 78-147) and
`FileList.handleDelete` (lines 47-75) are embedded as pure functions
returning the ordered trace of their observable effects: mutations of the
operation-in-progress set, `setError` calls, storage calls, the browser
save action, and the local file-listing update.  The `finally` blocks of
the source make the `removeOp` event the last event of every trace that
passed the initial guards. -/

/-- One observable effect of a `FileList` handler. -/
inductive Event where
  /-- `addOperatingFile(fileName)` (FileList.tsx, lines 16-18). -/
  | addOp (key : String)
  /-- `removeOperatingFile(fileName)` (FileList.tsx, lines 20-26). -/
  | removeOp (key : String)
  /-- `setError(...)`: `none` models `setError(null)`. -/
  | setErr (msg : Option String)
  /-- the `supabase.storage...download(fileName)` call (lines 88-91). -/
  | storageDownload (key : String)
  /-- the `supabase.storage...remove([fileName])` call (lines 56-59). -/
  | storageRemove (key : String)
  /-- the browser save action (lines 124-135): anchor click with the
  recovered file name, resolved MIME value, and decoded bytes. -/
  | save (name : String) (mime : JsValue) (bytes : List Nat)
  /-- `setFiles(prev => prev.filter(file => file.name !== fileName))` (line 67). -/
  | filesDrop (key : String)
deriving DecidableEq

/-- Environment of one `handleDownload` call: the storage download result
(`none` models a returned error) and the abstract
`CryptoJS.AES.decrypt(..).toString(Utf8)` primitive. -/
structure DownloadEnv where
  storage : Option String
  decrypt : String → String → String

/-- Environment of one `handleDelete` call: the `confirm(...)` answer and
whether the storage `remove` call succeeds. -/
structure DeleteEnv where
  confirm : Bool
  removeOk : Bool

/-- Shallow embedding of `FileList.handleDownload` (FileList.tsx, lines
78-147) as its trace of observable events. -/
def handleDownloadTrace (downloadPassword fileName : String) (env : DownloadEnv) : List Event :=
  if downloadPassword = "" then [.setErr (some "Please enter the decryption password")]
  else
    .addOp fileName :: .setErr none :: .storageDownload fileName ::
    match env.storage with
    | none => [.setErr (some "Failed to download file. Please try again."), .removeOp fileName]
    | some encryptedText =>
      let decrypted := env.decrypt encryptedText downloadPassword
      if decrypted = "" then
        [.setErr (some "Incorrect password or corrupted file"), .removeOp fileName]
      else
        match atobDecode decrypted with
        | none => [.setErr (some "Incorrect password or corrupted file"), .removeOp fileName]
        | some bytes =>
          let orig := parseOriginalName fileName
          [.save orig (getMimeType (extensionOf orig)) bytes, .removeOp fileName]

/-- Shallow embedding of `FileList.handleDelete` (FileList.tsx, lines
47-75) as its trace of observable events. -/
def handleDeleteTrace (fileName : String) (env : DeleteEnv) : List Event :=
  if env.confirm = false then []
  else
    .addOp fileName :: .setErr none :: .storageRemove fileName ::
    if env.removeOk then [.filesDrop fileName, .removeOp fileName]
    else [.setErr (some "Failed to delete file. Please try again."), .removeOp fileName]

/-- `Set.add` on the operation-in-progress set, membership-faithful on a
list model. -/
def opAdd (key : String) (s : List String) : List String :=
  if key ∈ s then s else key :: s

/-- `Set.delete` on the operation-in-progress set. -/
def opRemove (key : String) (s : List String) : List String :=
  s.filter (fun x => x ≠ key)

/-- Replay of the `addOp`/`removeOp` events of a trace over an initial
operation-in-progress set. -/
def applyOps (s : List String) : List Event → List String
  | [] => s
  | .addOp k :: rest => applyOps (opAdd k s) rest
  | .removeOp k :: rest => applyOps (opRemove k s) rest
  | _ :: rest => applyOps s rest

/-- The per-row `disabled=\x7boperatingFiles.has(file.name)\x7d` gate on the
download and delete buttons (FileList.tsx, lines 233 and 245). -/
def rowDisabled (s : List String) (key : String) : Bool :=
  key ∈ s

/-- Whether a trace contains a browser save action. -/
def hasSave : List Event → Bool
  | [] => false
  | .save _ _ _ :: _ => true
  | _ :: rest => hasSave rest

/-! ## Uploader batch processing

`FileUploader.handleUpload` (part_000, lines 145-231) with its helpers
`validateFile` (lines 135-143) and `updateFileProgress` (lines 129-133).
Upload tasks are matched *by file name* in `updateFileProgress`, exactly as
in the source. -/

/-- The `ALLOWED_TYPES` constant (part_000, lines 114-122). -/
def ALLOWED_TYPES : List String :=
  ["image/jpeg", "image/png", "image/gif", "application/pdf",
   "application/msword",
   "application/vnd.openxmlformats-officedocument.wordprocessingml.document",
   "text/plain"]

/-- The `MAX_FILE_SIZE` constant (part_000, line 113): 50 MiB. -/
def MAX_FILE_SIZE : Nat := 50 * 1024 * 1024

/-- The fields of a browser `File` object the uploader reads. -/
structure FileInfo where
  name : String
  type : String
  size : Nat
deriving DecidableEq

/-- `validateFile` (part_000, lines 135-143): `none` means valid. -/
def validateFile (f : FileInfo) : Option String :=
  if f.type ∉ ALLOWED_TYPES then some "File type not supported"
  else if f.size > MAX_FILE_SIZE then some "File size exceeds 50MB limit"
  else none

/-- Status of an `UploadingFile` task (part_000, line 109). -/
inductive UploadStatus where
  | uploading
  | error
  | complete
deriving DecidableEq

/-- An `UploadingFile` task (part_000, lines 106-111). -/
structure UploadTask where
  name : String
  progress : Nat
  status : UploadStatus
  errMsg : Option String
deriving DecidableEq

/-- A partial update object passed to `updateFileProgress`: absent fields
are kept from the existing task, as in the `\x7b...file, ...updates\x7d`
object spread of the source. -/
structure TaskUpdate where
  progress : Option Nat := none
  status : Option UploadStatus := none
  errMsg : Option (Option String) := none

/-- The `\x7b...file, ...updates\x7d` merge inside `updateFileProgress`. -/
def applyUpdate (t : UploadTask) (u : TaskUpdate) : UploadTask :=
  { name := t.name
    progress := u.progress.getD t.progress
    status := u.status.getD t.status
    errMsg := u.errMsg.getD t.errMsg }

/-- `updateFileProgress` (part_000, lines 129-133): updates every task
whose name equals the given file name. -/
def updateFileProgress (fileName : String) (u : TaskUpdate) (ts : List UploadTask) :
    List UploadTask :=
  ts.map (fun t => if t.name = fileName then applyUpdate t u else t)

/-- The body of the per-file loop of `handleUpload` (part_000, lines
164-222) for one file: returns the updated task list and whether the
storage upload call was made for this file.  `uploadOk` tells whether that
call, when made, succeeds. -/
def processOneFile (uploadOk : Bool) (f : FileInfo) (ts : List UploadTask) :
    List UploadTask × Bool :=
  match validateFile f with
  | some e => (updateFileProgress f.name { status := some .error, errMsg := some (some e) } ts, false)
  | none =>
    let ts1 := updateFileProgress f.name { progress := some 25 } ts
    let ts2 := updateFileProgress f.name { progress := some 50 } ts1
    let ts3 := updateFileProgress f.name { progress := some 75 } ts2
    if uploadOk then
      (updateFileProgress f.name { status := some .complete, progress := some 100 } ts3, true)
    else
      (updateFileProgress f.name { status := some .error, errMsg := some (some "Failed to upload file") } ts3, true)

/-- The task created for a selected file before processing starts
(part_000, lines 157-161): progress 0, status `uploading`. -/
def initTask (f : FileInfo) : UploadTask :=
  ⟨f.name, 0, .uploading, none⟩

/-- Whether the per-file loop reaches the storage upload call for a file:
exactly when `validateFile` accepts it. -/
def uploadCalled (f : FileInfo) : Bool :=
  validateFile f = none

/-- The per-file loop of `handleUpload` over a batch, threading the task
list and collecting the names for which a storage upload call was made. -/
def processFiles : List (FileInfo × Bool) → List UploadTask → List UploadTask × List String
  | [], ts => (ts, [])
  | (f, ok) :: rest, ts =>
    let step := processOneFile ok f ts
    let tail := processFiles rest step.fst
    (tail.fst, (if step.snd then [f.name] else []) ++ tail.snd)

/-- Shallow embedding of `FileUploader.handleUpload` (part_000, lines
145-231) on a batch: the inline error (the password gate, lines 151-154),
the final task list, and the names for which a storage upload call was
made.  `uploadOks` gives, positionally, the outcome of each file's storage
call when it is made. -/
def handleUpload (password : String) (files : List FileInfo) (uploadOks : List Bool) :
    Option String × List UploadTask × List String :=
  if validatePassword password = false then
    (some "Password must be at least 8 characters long", [], [])
  else
    let ts0 := files.map initTask
    let res := processFiles (files.zip uploadOks) ts0
    (none, res.fst, res.snd)

/-- The final task a file should reach when names are unambiguous: the
validation error, or complete at 100, or the storage-failure error at 75. -/
def expectedTask (f : FileInfo) (ok : Bool) : UploadTask :=
  match validateFile f with
  | some e => ⟨f.name, 0, .error, some e⟩
  | none =>
    if ok then ⟨f.name, 100, .complete, none⟩
    else ⟨f.name, 75, .error, some "Failed to upload file"⟩

/-! ## Share-link issuance

`ShareFileModal.generateShareLink` (ShareFilemodal.tsx, lines 20-53).
`new Date()` is modelled as a millisecond count and
`expiresAt.setDate(expiresAt.getDate() + expiryDays)` as adding
`expiryDays` days of 86400000 ms each (the calendar arithmetic of
JavaScript `setDate`, abstracting away daylight-saving shifts). -/

/-- Milliseconds in one day. -/
def dayMs : Nat := 86400000

/-- The row inserted into the `file_shares` table (ShareFilemodal.tsx,
lines 30-39). -/
structure ShareRecord where
  id : String
  file_name : String
  created_at : Nat
  expires_at : Nat
deriving DecidableEq

/-- Environment of one `generateShareLink` call: the current time, the
`crypto.randomUUID()` result, `window.location.origin`, and whether the
database insert succeeds. -/
structure ShareEnv where
  now : Nat
  uuid : String
  origin : String
  dbOk : Bool

/-- Shallow embedding of `ShareFileModal.generateShareLink`
(ShareFilemodal.tsx, lines 20-53): on success the inserted record and the
rendered link, on failure the inline error message. -/
def generateShareLink (fileName : String) (expiryDays : Nat) (env : ShareEnv) :
    Option (ShareRecord × String) × Option String :=
  let record : ShareRecord :=
    { id := env.uuid
      file_name := fileName
      created_at := env.now
      expires_at := env.now + expiryDays * dayMs }
  if env.dbOk then
    (some (record, env.origin ++ "/share/" ++ env.uuid), none)
  else
    (none, some "Failed to generate share link. Please try again.")

/-- The record inserted into `file_shares`, projected out of a
`generateShareLink` result. -/
def insertedRecord (r : Option (ShareRecord × String) × Option String) : Option ShareRecord :=
  r.1.map (fun p => p.1)

/-- The link rendered on success, projected out of a `generateShareLink`
result. -/
def renderedLink (r : Option (ShareRecord × String) × Option String) : Option String :=
  r.1.map (fun p => p.2)

/-- Counterexample to claim C9: `constructor` is none of the eight table
keys, yet `getMimeType "constructor"` is not `application/octet-stream` —
the JavaScript lookup `mimeTypes['constructor']` resolves through the
prototype chain to the truthy inherited `Object` constructor, so the `||`
fallback never fires; likewise for `__proto__`. -/
theorem c9_counterexample :
    getMimeType "constructor" = JsValue.protoMember "constructor" ∧
    getMimeType "constructor" ≠ JsValue.str "application/octet-stream" ∧
    getMimeType "__proto__" ≠ JsValue.str "application/octet-stream" := by
  refine ⟨rfl, ?_, ?_⟩ <;> decide

/-- Claim C9 (amended): `getMimeType` returns the table value for exactly
the keys pdf, doc, docx, txt, png, jpg, jpeg, gif, and
`application/octet-stream` for every other extension that does not name an
`Object.prototype` member (it agrees with the specification lookup
`mimeSpec` on all such extensions); for the `Object.prototype` member
names the object lookup finds the truthy inherited value and returns it
instead of falling back; in particular `getMimeType "xyz"` is
`application/octet-stream`. -/
theorem c9_amended :
    (∀ e, e ∉ objectProtoMembers → getMimeType e = JsValue.str (mimeSpec e)) ∧
    (∀ e ∈ objectProtoMembers, getMimeType e = JsValue.protoMember e) ∧
    getMimeType "xyz" = JsValue.str "application/octet-stream" := by
  refine ⟨?_, by decide, rfl⟩
  intro e he
  by_cases h1 : e = "pdf"
  · subst h1; rfl
  by_cases h2 : e = "doc"
  · subst h2; rfl
  by_cases h3 : e = "docx"
  · subst h3; rfl
  by_cases h4 : e = "txt"
  · subst h4; rfl
  by_cases h5 : e = "png"
  · subst h5; rfl
  by_cases h6 : e = "jpg"
  · subst h6; rfl
  by_cases h7 : e = "jpeg"
  · subst h7; rfl
  by_cases h8 : e = "gif"
  · subst h8; rfl
  simp [getMimeType, mimeSpec, mimeTypes, List.find?, he,
    Ne.symm h1, Ne.symm h2, Ne.symm h3, Ne.symm h4,
    Ne.symm h5, Ne.symm h6, Ne.symm h7, Ne.symm h8,
    h1, h2, h3, h4, h5, h6, h7, h8]

/-- Witness for the amended C9 at the extension `xyz`, which is neither a
table key nor an `Object.prototype` member. -/
theorem c9_amended_witness :
    "xyz" ∉ objectProtoMembers ∧ getMimeType "xyz" = JsValue.str (mimeSpec "xyz") :=
  ⟨by decide, c9_amended.1 "xyz" (by decide)⟩

/-- Claim C8: on a successful database insert, `generateShareLink`
persists the record with the generated identifier, the given file name,
the creation time, and an expiry equal to the creation time plus
`expiryDays` days, and renders the URL `origin ++ "/share/" ++ id`. -/
theorem c8_share_link (fileName : String) (expiryDays : Nat) (env : ShareEnv)
    (hdb : env.dbOk = true) :
    insertedRecord (generateShareLink fileName expiryDays env) =
      some ⟨env.uuid, fileName, env.now, env.now + expiryDays * dayMs⟩ ∧
    renderedLink (generateShareLink fileName expiryDays env) =
      some (env.origin ++ "/share/" ++ env.uuid) ∧
    (generateShareLink fileName expiryDays env).2 = none := by
  simp [generateShareLink, insertedRecord, renderedLink, hdb]

/-- Witness for C8 at a concrete call. -/
theorem c8_share_link_witness :
    insertedRecord (generateShareLink "report.pdf" 7 ⟨1700000000000, "uuid-1", "https://app.example", true⟩) =
      some ⟨"uuid-1", "report.pdf", 1700000000000, 1700000000000 + 7 * dayMs⟩ ∧
    renderedLink (generateShareLink "report.pdf" 7 ⟨1700000000000, "uuid-1", "https://app.example", true⟩) =
      some ("https://app.example" ++ "/share/" ++ "uuid-1") ∧
    (generateShareLink "report.pdf" 7 ⟨1700000000000, "uuid-1", "https://app.example", true⟩).2 = none :=
  c8_share_link "report.pdf" 7 ⟨1700000000000, "uuid-1", "https://app.example", true⟩ rfl

/-- Claim C10: calling `handleDownload` with an empty decryption-password
field sets exactly the inline error `Please enter the decryption password`
and returns: no storage fetch happens, the operation-in-progress set is
unchanged whatever it was, and the row's busy gate is untouched. -/
theorem c10_download_password_gate (fileName : String) (env : DownloadEnv) (init : List String) :
    handleDownloadTrace "" fileName env = [.setErr (some "Please enter the decryption password")] ∧
    applyOps init (handleDownloadTrace "" fileName env) = init ∧
    Event.storageDownload fileName ∉ handleDownloadTrace "" fileName env ∧
    rowDisabled (applyOps init (handleDownloadTrace "" fileName env)) fileName =
      rowDisabled init fileName := by
  refine ⟨rfl, rfl, ?_, rfl⟩
  simp [handleDownloadTrace]

/-- Claim C4: when the storage download succeeds but the cipher yields an
empty decrypted string, `handleDownload` reports exactly the
decryption-failure message `Incorrect password or corrupted file` (never
the generic storage-failure message) and triggers no browser save
action. -/
theorem c4_empty_decrypt_signals (pw fileName ct : String) (env : DownloadEnv)
    (hpw : pw ≠ "") (hst : env.storage = some ct) (hdec : env.decrypt ct pw = "") :
    handleDownloadTrace pw fileName env =
      [.addOp fileName, .setErr none, .storageDownload fileName,
       .setErr (some "Incorrect password or corrupted file"), .removeOp fileName] ∧
    hasSave (handleDownloadTrace pw fileName env) = false ∧
    Event.setErr (some "Failed to download file. Please try again.") ∉
      handleDownloadTrace pw fileName env := by
  have htr : handleDownloadTrace pw fileName env =
      [.addOp fileName, .setErr none, .storageDownload fileName,
       .setErr (some "Incorrect password or corrupted file"), .removeOp fileName] := by
    simp [handleDownloadTrace, hpw, hst, hdec]
  refine ⟨htr, ?_, ?_⟩
  · rw [htr]; rfl
  · rw [htr]; simp

/-- Witness for C4 at a concrete call whose cipher yields the empty
string. -/
theorem c4_empty_decrypt_signals_witness :
    handleDownloadTrace "pw123456" "k.encrypted" ⟨some "ct", fun _ _ => ""⟩ =
      [.addOp "k.encrypted", .setErr none, .storageDownload "k.encrypted",
       .setErr (some "Incorrect password or corrupted file"), .removeOp "k.encrypted"] ∧
    hasSave (handleDownloadTrace "pw123456" "k.encrypted" ⟨some "ct", fun _ _ => ""⟩) = false ∧
    Event.setErr (some "Failed to download file. Please try again.") ∉
      handleDownloadTrace "pw123456" "k.encrypted" ⟨some "ct", fun _ _ => ""⟩ :=
  c4_empty_decrypt_signals "pw123456" "k.encrypted" "ct" ⟨some "ct", fun _ _ => ""⟩
    (by decide) rfl rfl

/-- Claim C6: a password shorter than 8 characters (in particular the empty
one) makes `handleUpload` report the validation error and return with no
per-file tasks created and no storage upload call made. -/
theorem c6_upload_password_gate (pw : String) (files : List FileInfo) (oks : List Bool)
    (hpw : pw.length < 8) :
    handleUpload pw files oks = (some "Password must be at least 8 characters long", [], []) := by
  have hv : validatePassword pw = false := by
    simp [validatePassword]
    omega
  simp [handleUpload, hv]

/-- Witness for C6 at the empty password. -/
theorem c6_upload_password_gate_witness :
    handleUpload "" [⟨"a.txt", "text/plain", 10⟩] [true] =
      (some "Password must be at least 8 characters long", [], []) :=
  c6_upload_password_gate "" [⟨"a.txt", "text/plain", 10⟩] [true] (by decide)

/-! ## Naming-scheme lemmas -/

theorem splitOnSep_ne_nil (sep : Char) (l : List Char) : splitOnSep sep l ≠ [] := by
  cases l with
  | nil => simp [splitOnSep]
  | cons c rest =>
    simp only [splitOnSep]
    cases h : splitOnSep sep rest with
    | nil => simp
    | cons g gs => by_cases hc : c = sep <;> simp [hc]

theorem joinSep_cons_cons (sep : Char) (g : List Char) (gs : List (List Char))
    (h : gs ≠ []) : joinSep sep (g :: gs) = g ++ sep :: joinSep sep gs := by
  cases gs with
  | nil => exact absurd rfl h
  | cons g2 gs2 => rfl

theorem joinSep_splitOnSep (sep : Char) (l : List Char) :
    joinSep sep (splitOnSep sep l) = l := by
  induction l with
  | nil => rfl
  | cons c rest ih =>
    cases h : splitOnSep sep rest with
    | nil => exact absurd h (splitOnSep_ne_nil sep rest)
    | cons g gs =>
      rw [h] at ih
      by_cases hc : c = sep
      · subst hc
        simp only [splitOnSep, h, if_true]
        rw [joinSep_cons_cons _ _ _ (by simp), List.nil_append, ih]
      · simp only [splitOnSep, h]
        rw [if_neg hc]
        cases gs with
        | nil =>
          simp only [joinSep] at ih ⊢
          rw [ih]
        | cons g2 gs2 =>
          rw [joinSep_cons_cons _ _ _ (by simp)] at ih
          rw [joinSep_cons_cons _ _ _ (by simp), List.cons_append, ih]

theorem splitOnSep_append (sep : Char) (a b : List Char) (ha : sep ∉ a) :
    splitOnSep sep (a ++ sep :: b) = a :: splitOnSep sep b := by
  induction a with
  | nil =>
    cases h : splitOnSep sep b with
    | nil => exact absurd h (splitOnSep_ne_nil sep b)
    | cons g gs => simp [splitOnSep, h]
  | cons c a2 ih =>
    have hc : ¬ (c = sep) := fun h => ha (by simp [h])
    have ha2 : sep ∉ a2 := fun h => ha (by simp [h])
    simp only [List.cons_append, splitOnSep, List.append_eq]
    rw [ih ha2]
    simp [hc]

theorem digitChar_ne_dash : ∀ m < 10, Nat.digitChar m ≠ '-' := by decide

theorem toDigitsCore_no_dash (fuel : Nat) : ∀ (n : Nat) (ds : List Char),
    '-' ∉ ds → '-' ∉ Nat.toDigitsCore 10 fuel n ds := by
  induction fuel with
  | zero =>
    intro n ds h
    simpa [Nat.toDigitsCore] using h
  | succ fuel ih =>
    intro n ds h
    have hd : Nat.digitChar (n % 10) ≠ '-' :=
      digitChar_ne_dash (n % 10) (Nat.mod_lt n (by norm_num))
    have hcons : '-' ∉ Nat.digitChar (n % 10) :: ds := by
      intro hmem
      rcases List.mem_cons.mp hmem with h1 | h1
      · exact hd h1.symm
      · exact h h1
    simp only [Nat.toDigitsCore]
    by_cases h0 : n / 10 = 0
    · simp only [h0, if_pos rfl]
      exact hcons
    · rw [if_neg h0]
      exact ih (n / 10) _ hcons

theorem repr_no_dash (t : Nat) : '-' ∉ (Nat.repr t).data := by
  have : (Nat.repr t).data = Nat.toDigitsCore 10 (t + 1) t [] := rfl
  rw [this]
  exact toDigitsCore_no_dash (t + 1) t [] (by simp)

theorem encSuffix_eq : encSuffix = ['.', 'e', 'n', 'c', 'r', 'y', 'p', 't', 'e', 'd'] := rfl

theorem encSuffix_no_overlap :
    ∀ k < 10, 1 ≤ k → encSuffix ≠ encSuffix.take k ++ encSuffix.take (10 - k) := by
  decide

theorem encSuffix_not_prefix_append (m : List Char) (hne : m ≠ [])
    (hm : ¬ encSuffix <+: m) : ¬ encSuffix <+: (m ++ encSuffix) := by
  intro hpf
  have hlen : encSuffix.length = 10 := by decide
  have htake := List.prefix_iff_eq_take.mp hpf
  rw [hlen, List.take_append_eq_append_take] at htake
  by_cases hml : m.length ≤ 10
  · have hm10 : List.take 10 m = m := List.take_of_length_le hml
    rw [hm10] at htake
    have hmk : m = List.take m.length encSuffix := by
      have h2 := congrArg (List.take m.length) htake
      rw [List.take_left] at h2
      exact h2.symm
    have hk1 : 1 ≤ m.length := by
      cases m with
      | nil => exact absurd rfl hne
      | cons c m2 => simp
    by_cases hk10 : m.length < 10
    · refine encSuffix_no_overlap m.length hk10 hk1 ?_
      rw [← hmk]
      exact htake
    · have h10 : m.length = 10 := by omega
      rw [h10] at hmk
      have hme : m = encSuffix := by
        rw [hmk, List.take_of_length_le (by rw [hlen])]
      apply hm
      rw [hme]
  · have h0 : 10 - m.length = 0 := by omega
    rw [h0, List.take_zero, List.append_nil] at htake
    apply hm
    rw [htake]
    exact List.take_prefix 10 m

theorem replaceFirst_append_encSuffix : ∀ m : List Char, ¬ encSuffix <:+: m →
    replaceFirst encSuffix [] (m ++ encSuffix) = m := by
  intro m
  induction m with
  | nil => intro _; decide
  | cons c m2 ih =>
    intro hinf
    have hm2 : ¬ encSuffix <:+: m2 := fun h => hinf (List.infix_cons h)
    have hnp : ¬ encSuffix <+: (c :: m2) := fun h =>
      hinf (List.infix_cons_iff.mpr (Or.inl h))
    have hfalse : encSuffix.isPrefixOf ((c :: m2) ++ encSuffix) = false := by
      rw [Bool.eq_false_iff]
      intro htrue
      exact encSuffix_not_prefix_append (c :: m2) (by simp) hnp
        (List.isPrefixOf_iff_prefix.mp htrue)
    rw [List.cons_append, replaceFirst, ← List.cons_append, hfalse]
    simp only [Bool.false_eq_true, if_false]
    rw [ih hm2]

theorem parseOriginalName_makeKey (t : Nat) (n : String)
    (hn : ¬ encSuffix <:+: n.data) :
    parseOriginalName (makeKey t n) = n := by
  unfold parseOriginalName makeKey
  have h1 : ("-" : String).data = ['-'] := rfl
  have h2 : (".encrypted" : String).data = encSuffix := rfl
  have hdata : (Nat.repr t ++ "-" ++ n ++ ".encrypted").data =
      (Nat.repr t).data ++ '-' :: (n.data ++ encSuffix) := by
    simp only [String.data_append, h1, h2, List.append_assoc, List.singleton_append,
      List.cons_append, List.nil_append, encSuffix_eq]
  rw [hdata, splitOnSep_append '-' _ _ (repr_no_dash t), List.drop_one, List.tail_cons,
    joinSep_splitOnSep, replaceFirst_append_encSuffix _ hn]

/-- Counterexample to claim C2: for the original name `a-b.txt`, which
contains the separator character `-`, parsing the storage key recovers the
name exactly — it is not a proper truncation and no part of the name is
dropped, because the download path rejoins the post-timestamp segments
with `join('-')`. -/
theorem c2_counterexample :
    parseOriginalName (makeKey 17 "a-b.txt") = "a-b.txt" := by decide

/-- Claim C2 (amended): for every original name containing the separator
character `-` (and not containing `.encrypted` as a substring) and every
timestamp, parsing the storage key recovers the original name exactly;
nothing is silently dropped. -/
theorem c2_amended (t : Nat) (n : String) (hdash : '-' ∈ n.data)
    (henc : ¬ encSuffix <:+: n.data) :
    parseOriginalName (makeKey t n) = n :=
  parseOriginalName_makeKey t n henc

/-- Witness for the amended C2 at the concrete name `a-b.txt`. -/
theorem c2_amended_witness :
    '-' ∈ ("a-b.txt" : String).data ∧
    ¬ encSuffix <:+: ("a-b.txt" : String).data ∧
    parseOriginalName (makeKey 99 "a-b.txt") = "a-b.txt" :=
  ⟨by decide, by decide, c2_amended 99 "a-b.txt" (by decide) (by decide)⟩

/-- Counterexample to claim C3: the original name `a.encrypted.txt`
contains no `-`, yet parsing its storage key does not recover it —
`replace('.encrypted', '')` removes the first occurrence of `.encrypted`,
which here lies inside the original name. -/
theorem c3_counterexample :
    parseKey (makeKey 17 "a.encrypted.txt") = ("a.txt.encrypted", "encrypted") ∧
    parseKey (makeKey 17 "a.encrypted.txt") ≠
      ("a.encrypted.txt", extensionOf "a.encrypted.txt") := by
  constructor <;> decide

/-- Claim C3 (amended): for every original name without the separator
character `-` and without `.encrypted` as a substring, and every
timestamp, parsing the storage key recovers exactly the pair of the
original name and its extension (the lowercased last `.`-separated
segment). -/
theorem c3_amended (t : Nat) (n : String) (hdash : '-' ∉ n.data)
    (henc : ¬ encSuffix <:+: n.data) :
    parseKey (makeKey t n) = (n, extensionOf n) := by
  unfold parseKey
  rw [parseOriginalName_makeKey t n henc]

/-- Witness for the amended C3 at the concrete name `Photo.JPG`. -/
theorem c3_amended_witness :
    '-' ∉ ("Photo.JPG" : String).data ∧
    ¬ encSuffix <:+: ("Photo.JPG" : String).data ∧
    parseKey (makeKey 99 "Photo.JPG") = ("Photo.JPG", extensionOf "Photo.JPG") :=
  ⟨by decide, by decide, c3_amended 99 "Photo.JPG" (by decide) (by decide)⟩

/-- Helper: whenever the storage download succeeds, the decrypted text is
nonempty, and `atob` rejects it, `handleDownload` ends in the
decryption-failure error with no save action. -/
theorem downloadTrace_of_atob_none (pw fileName ct d0 : String) (env : DownloadEnv)
    (hpw : pw ≠ "") (hst : env.storage = some ct) (hd : env.decrypt ct pw = d0)
    (hne : d0 ≠ "") (hatob : atobDecode d0 = none) :
    handleDownloadTrace pw fileName env =
      [.addOp fileName, .setErr none, .storageDownload fileName,
       .setErr (some "Incorrect password or corrupted file"), .removeOp fileName] := by
  simp [handleDownloadTrace, hpw, hst, hd, hne, hatob]

/-- Claim C1 evaluated on the code: the round trip fails.  Even for a
perfect cipher (`dec (enc s p) p = s`, the round-trip property of
`CryptoJS.AES`), downloading the payload the uploader produced for the
bytes `[104, 105]` of `hi.txt` does not yield those bytes back: the
uploader encrypts the JSON metadata envelope, but the download path feeds
the decrypted text to `atob` directly without unwrapping the envelope, so
`atob` rejects it, no browser save action fires, and the handler reports
`Incorrect password or corrupted file`. -/
theorem c1_roundtrip_broken (enc dec : String → String → String)
    (hcipher : ∀ s p, dec (enc s p) p = s) :
    handleDownloadTrace "password123" (makeKey 17 "hi.txt")
        ⟨some (uploadPayload enc [104, 105] "text/plain" "hi.txt" "password123"), dec⟩ =
      [.addOp (makeKey 17 "hi.txt"), .setErr none, .storageDownload (makeKey 17 "hi.txt"),
       .setErr (some "Incorrect password or corrupted file"), .removeOp (makeKey 17 "hi.txt")] ∧
    hasSave (handleDownloadTrace "password123" (makeKey 17 "hi.txt")
        ⟨some (uploadPayload enc [104, 105] "text/plain" "hi.txt" "password123"), dec⟩) =
      false := by
  have htr := downloadTrace_of_atob_none "password123" (makeKey 17 "hi.txt")
    (uploadPayload enc [104, 105] "text/plain" "hi.txt" "password123")
    (uploadDataToEncrypt [104, 105] "text/plain" (uploadFileExt "hi.txt"))
    ⟨some (uploadPayload enc [104, 105] "text/plain" "hi.txt" "password123"), dec⟩
    (by decide) rfl (hcipher _ _) (by decide) (by decide)
  exact ⟨htr, by rw [htr]; rfl⟩

/-- Witness for C1 at the identity cipher, which satisfies the round-trip
hypothesis. -/
theorem c1_roundtrip_broken_witness :
    handleDownloadTrace "password123" (makeKey 17 "hi.txt")
        ⟨some (uploadPayload (fun s _ => s) [104, 105] "text/plain" "hi.txt" "password123"),
         fun s _ => s⟩ =
      [.addOp (makeKey 17 "hi.txt"), .setErr none, .storageDownload (makeKey 17 "hi.txt"),
       .setErr (some "Incorrect password or corrupted file"), .removeOp (makeKey 17 "hi.txt")] ∧
    hasSave (handleDownloadTrace "password123" (makeKey 17 "hi.txt")
        ⟨some (uploadPayload (fun s _ => s) [104, 105] "text/plain" "hi.txt" "password123"),
         fun s _ => s⟩) = false :=
  c1_roundtrip_broken (fun s _ => s) (fun s _ => s) (fun _ _ => rfl)

/-! ## Uploader batch lemmas

`updateFileProgress` matches tasks by file name, so the per-file
characterization of `handleUpload` needs the batch's names to be pairwise
distinct; `c5_counterexample` shows the characterization genuinely fails
without that. -/

theorem updateFileProgress_fresh (name : String) (u : TaskUpdate) (ts : List UploadTask)
    (h : ∀ t ∈ ts, t.name ≠ name) : updateFileProgress name u ts = ts := by
  induction ts with
  | nil => rfl
  | cons t rest ih =>
    have h1 : ¬ (t.name = name) := h t (by simp)
    have h2 := ih (fun x hx => h x (by simp [hx]))
    simp only [updateFileProgress, List.map_cons] at h2 ⊢
    rw [if_neg h1, h2]

theorem updateFileProgress_append (name : String) (u : TaskUpdate)
    (pre ts : List UploadTask) :
    updateFileProgress name u (pre ++ ts) =
      updateFileProgress name u pre ++ updateFileProgress name u ts :=
  List.map_append _ _ _

theorem updateFileProgress_cons_match (name : String) (u : TaskUpdate)
    (t : UploadTask) (ts : List UploadTask) (h : t.name = name) :
    updateFileProgress name u (t :: ts) = applyUpdate t u :: updateFileProgress name u ts := by
  simp [updateFileProgress, h]

theorem processOneFile_append (ok : Bool) (f : FileInfo) (pre ts : List UploadTask)
    (h : ∀ t ∈ pre, t.name ≠ f.name) :
    processOneFile ok f (pre ++ ts) =
      (pre ++ (processOneFile ok f ts).fst, (processOneFile ok f ts).snd) := by
  have hpre : ∀ u, updateFileProgress f.name u pre = pre :=
    fun u => updateFileProgress_fresh f.name u pre h
  cases hv : validateFile f with
  | some e => simp [processOneFile, hv, updateFileProgress_append, hpre]
  | none => cases ok <;> simp [processOneFile, hv, updateFileProgress_append, hpre]

theorem processOneFile_init (ok : Bool) (f : FileInfo) (ts : List UploadTask)
    (hfresh : ∀ x ∈ ts, x.name ≠ f.name) :
    processOneFile ok f (initTask f :: ts) = (expectedTask f ok :: ts, uploadCalled f) := by
  have htail : ∀ u, updateFileProgress f.name u ts = ts :=
    fun u => updateFileProgress_fresh f.name u ts hfresh
  cases hv : validateFile f with
  | some e =>
    simp [processOneFile, expectedTask, uploadCalled, hv, htail,
      updateFileProgress_cons_match, applyUpdate, initTask]
  | none =>
    cases ok <;>
      simp [processOneFile, expectedTask, uploadCalled, hv, htail,
        updateFileProgress_cons_match, applyUpdate, initTask]

theorem expectedTask_name (f : FileInfo) (ok : Bool) : (expectedTask f ok).name = f.name := by
  cases hv : validateFile f <;> cases ok <;> simp [expectedTask, hv]

theorem processFiles_append (fs : List (FileInfo × Bool)) (pre ts : List UploadTask)
    (h : ∀ t ∈ pre, ∀ p ∈ fs, t.name ≠ p.1.name) :
    processFiles fs (pre ++ ts) =
      (pre ++ (processFiles fs ts).fst, (processFiles fs ts).snd) := by
  induction fs generalizing ts with
  | nil => simp [processFiles]
  | cons p rest ih =>
    obtain ⟨f, ok⟩ := p
    simp only [processFiles]
    rw [processOneFile_append ok f pre ts (fun t ht => h t ht (f, ok) (by simp))]
    rw [ih ((processOneFile ok f ts).fst) (fun t ht q hq => h t ht q (by simp [hq]))]

theorem processFiles_distinct (fs : List (FileInfo × Bool))
    (h : (fs.map (fun p => p.1.name)).Nodup) :
    processFiles fs (fs.map (fun p => initTask p.1)) =
      (fs.map (fun p => expectedTask p.1 p.2),
       (fs.filter (fun p => uploadCalled p.1)).map (fun p => p.1.name)) := by
  induction fs with
  | nil => rfl
  | cons p rest ih =>
    obtain ⟨f, ok⟩ := p
    simp only [List.map_cons] at h
    have hnodup := List.nodup_cons.mp h
    have hfresh : ∀ q ∈ rest, q.1.name ≠ f.name := by
      intro q hq heq
      exact hnodup.1 (heq ▸ List.mem_map_of_mem (fun p => p.1.name) hq)
    have hstep := processOneFile_init ok f (rest.map (fun p => initTask p.1)) (by
      intro x hx
      obtain ⟨q, hq, rfl⟩ := List.mem_map.mp hx
      exact hfresh q hq)
    simp only [List.map_cons, processFiles, hstep]
    rw [show expectedTask f ok :: rest.map (fun p => initTask p.1) =
      [expectedTask f ok] ++ rest.map (fun p => initTask p.1) from rfl]
    rw [processFiles_append rest [expectedTask f ok] _ (by
      intro t ht q hq
      rcases List.mem_singleton.mp ht with rfl
      rw [expectedTask_name]
      exact fun he => hfresh q hq he.symm)]
    rw [ih hnodup.2]
    cases hc : uploadCalled f <;> simp [hc, List.filter_cons]

/-- Counterexample to claim C5: in a batch of two files that share the
name `x`, the first file fails validation (51 MiB, over the 50 MiB limit)
yet its task ends with status `complete`, because `updateFileProgress`
matches tasks by name and the second file's completion overwrites both
entries. -/
theorem c5_counterexample :
    validateFile ⟨"x", "text/plain", 52428801⟩ = some "File size exceeds 50MB limit" ∧
    (handleUpload "password123"
        [⟨"x", "text/plain", 52428801⟩, ⟨"x", "text/plain", 10⟩]
        [true, true]).2.1.map UploadTask.status = [.complete, .complete] := by
  constructor <;> decide

/-- Claim C5 (amended): for every batch of files with pairwise distinct
names and a valid password, `handleUpload` reaches exactly the expected
per-file outcome: a file that fails validation (disallowed MIME type or
size strictly over 50 MiB) ends with status `error` and no storage upload
call is made for it, while every other file is still processed
independently — complete at 100 on upload success, error after a storage
failure — and the storage upload call is made exactly for the files that
pass validation. -/
theorem c5_amended (pw : String) (files : List FileInfo) (oks : List Bool)
    (hpw : validatePassword pw = true)
    (hlen : oks.length = files.length)
    (hnodup : (files.map FileInfo.name).Nodup) :
    handleUpload pw files oks =
      (none,
       (files.zip oks).map (fun p => expectedTask p.1 p.2),
       ((files.zip oks).filter (fun p => uploadCalled p.1)).map (fun p => p.1.name)) := by
  have hmapfst : (files.zip oks).map Prod.fst = files :=
    List.map_fst_zip files oks (by omega)
  have hinit : files.map initTask = (files.zip oks).map (fun p => initTask p.1) := by
    conv_lhs => rw [← hmapfst]
    rw [List.map_map]
    rfl
  have hnames : ((files.zip oks).map (fun p => p.1.name)).Nodup := by
    have : (files.zip oks).map (fun p => p.1.name) = files.map FileInfo.name := by
      conv_rhs => rw [← hmapfst]
      rw [List.map_map]
      rfl
    rw [this]
    exact hnodup
  simp only [handleUpload, hpw]
  rw [if_neg (by simp), hinit, processFiles_distinct (files.zip oks) hnames]

/-- Witness for the amended C5 at the specified 3-file batch whose second
file is oversized: files 1 and 3 end complete, file 2 ends with the size
error, and upload calls are made only for files 1 and 3. -/
theorem c5_amended_witness :
    handleUpload "password123"
        [⟨"a.txt", "text/plain", 10⟩, ⟨"b.txt", "text/plain", 52428801⟩,
         ⟨"c.txt", "text/plain", 10⟩]
        [true, true, true] =
      (none,
       [⟨"a.txt", 100, .complete, none⟩,
        ⟨"b.txt", 0, .error, some "File size exceeds 50MB limit"⟩,
        ⟨"c.txt", 100, .complete, none⟩],
       ["a.txt", "c.txt"]) := by
  rw [c5_amended "password123" _ _ (by decide) (by decide) (by decide)]
  decide

/-! ## Busy-state lemmas -/

/-- Whether an event touches the operation-in-progress set. -/
def isOpEvent : Event → Bool
  | .addOp _ => true
  | .removeOp _ => true
  | _ => false

theorem applyOps_append (s : List String) (l1 l2 : List Event) :
    applyOps s (l1 ++ l2) = applyOps (applyOps s l1) l2 := by
  induction l1 generalizing s with
  | nil => rfl
  | cons e rest ih => cases e <;> simp only [List.cons_append, applyOps] <;> exact ih _

theorem applyOps_no_ops (l : List Event) (h : ∀ e ∈ l, isOpEvent e = false)
    (s : List String) : applyOps s l = s := by
  induction l with
  | nil => rfl
  | cons e rest ih =>
    have he := h e (by simp)
    have hrest := ih (fun x hx => h x (by simp [hx]))
    cases e <;> simp [isOpEvent] at he ⊢ <;> exact hrest

theorem mem_opAdd_self (key : String) (s : List String) : key ∈ opAdd key s := by
  unfold opAdd
  split <;> simp_all

theorem mem_opAdd_ne (k key : String) (s : List String) (h : k ≠ key) :
    k ∈ opAdd key s ↔ k ∈ s := by
  unfold opAdd
  split <;> simp_all

theorem not_mem_opRemove (key : String) (s : List String) : key ∉ opRemove key s := by
  simp [opRemove]

theorem mem_opRemove_ne (k key : String) (s : List String) (h : k ≠ key) :
    k ∈ opRemove key s ↔ k ∈ s := by
  simp [opRemove, h]

/-- Core busy-state fact: a trace of the shape
`addOp key :: mid ++ [removeOp key]`, where `mid` touches no sets, leaves
the key outside the final set, leaves every other key's membership
unchanged, and keeps the row's buttons disabled throughout the operation
(the state before the final removal) without disturbing other rows. -/
theorem busyBlock (key : String) (init : List String) (mid : List Event)
    (hmid : ∀ e ∈ mid, isOpEvent e = false) :
    key ∉ applyOps init (Event.addOp key :: mid ++ [Event.removeOp key]) ∧
    (∀ k, k ≠ key → (k ∈ applyOps init (Event.addOp key :: mid ++ [Event.removeOp key]) ↔ k ∈ init)) ∧
    rowDisabled (applyOps init ((Event.addOp key :: mid ++ [Event.removeOp key]).dropLast)) key = true ∧
    (∀ k, k ≠ key →
      rowDisabled (applyOps init ((Event.addOp key :: mid ++ [Event.removeOp key]).dropLast)) k =
        rowDisabled init k) := by
  have hfinal : applyOps init (Event.addOp key :: mid ++ [Event.removeOp key]) =
      opRemove key (opAdd key init) := by
    show applyOps (opAdd key init) (mid ++ [Event.removeOp key]) = _
    rw [applyOps_append, applyOps_no_ops mid hmid]
    rfl
  have hdrop : (Event.addOp key :: mid ++ [Event.removeOp key]).dropLast =
      Event.addOp key :: mid := by
    rw [show Event.addOp key :: mid ++ [Event.removeOp key] =
      (Event.addOp key :: mid) ++ [Event.removeOp key] from rfl]
    exact List.dropLast_concat
  have hmidstate : applyOps init (Event.addOp key :: mid) = opAdd key init := by
    show applyOps (opAdd key init) mid = _
    exact applyOps_no_ops mid hmid _
  refine ⟨?_, ?_, ?_, ?_⟩
  · rw [hfinal]
    exact not_mem_opRemove key _
  · intro k hk
    rw [hfinal, mem_opRemove_ne k key _ hk, mem_opAdd_ne k key _ hk]
  · rw [hdrop, hmidstate]
    simp [rowDisabled, mem_opAdd_self]
  · intro k hk
    rw [hdrop, hmidstate]
    simp [rowDisabled, mem_opAdd_ne k key _ hk]

/-- Claim C7: every download that passes the password gate and every
delete that is confirmed adds the storage key to the operation-in-progress
set as its very first action (before any storage call), removes it on
every exit path (the key is outside the final set whatever the storage,
decryption, or decode outcome), leaves other keys' membership untouched,
and while the operation is in flight the key's row buttons are disabled
while other rows' button states are unchanged. -/
theorem c7_busy_state_discipline (pw key : String) (env : DownloadEnv) (denv : DeleteEnv)
    (init : List String) (hpw : pw ≠ "") (hconfirm : denv.confirm = true) :
    (handleDownloadTrace pw key env).head? = some (.addOp key) ∧
    key ∉ applyOps init (handleDownloadTrace pw key env) ∧
    (∀ k, k ≠ key → (k ∈ applyOps init (handleDownloadTrace pw key env) ↔ k ∈ init)) ∧
    rowDisabled (applyOps init ((handleDownloadTrace pw key env).dropLast)) key = true ∧
    (∀ k, k ≠ key →
      rowDisabled (applyOps init ((handleDownloadTrace pw key env).dropLast)) k =
        rowDisabled init k) ∧
    (handleDeleteTrace key denv).head? = some (.addOp key) ∧
    key ∉ applyOps init (handleDeleteTrace key denv) ∧
    (∀ k, k ≠ key → (k ∈ applyOps init (handleDeleteTrace key denv) ↔ k ∈ init)) ∧
    rowDisabled (applyOps init ((handleDeleteTrace key denv).dropLast)) key = true ∧
    (∀ k, k ≠ key →
      rowDisabled (applyOps init ((handleDeleteTrace key denv).dropLast)) k =
        rowDisabled init k) := by
  obtain ⟨st, dec⟩ := env
  obtain ⟨cf, rok⟩ := denv
  have hdl : ∃ mid, handleDownloadTrace pw key ⟨st, dec⟩ =
      Event.addOp key :: mid ++ [Event.removeOp key] ∧ ∀ e ∈ mid, isOpEvent e = false := by
    unfold handleDownloadTrace
    rw [if_neg hpw]
    cases st with
    | none =>
      exact ⟨[.setErr none, .storageDownload key,
        .setErr (some "Failed to download file. Please try again.")], rfl, by simp [isOpEvent]⟩
    | some ct =>
      dsimp only
      by_cases hd : dec ct pw = ""
      · rw [if_pos hd]
        exact ⟨[.setErr none, .storageDownload key,
          .setErr (some "Incorrect password or corrupted file")], rfl, by simp [isOpEvent]⟩
      · rw [if_neg hd]
        cases atobDecode (dec ct pw) with
        | none =>
          exact ⟨[.setErr none, .storageDownload key,
            .setErr (some "Incorrect password or corrupted file")], rfl, by simp [isOpEvent]⟩
        | some bytes =>
          exact ⟨[.setErr none, .storageDownload key,
            .save (parseOriginalName key) (getMimeType (extensionOf (parseOriginalName key))) bytes],
            rfl, by simp [isOpEvent]⟩
  have hde : ∃ mid, handleDeleteTrace key ⟨cf, rok⟩ =
      Event.addOp key :: mid ++ [Event.removeOp key] ∧ ∀ e ∈ mid, isOpEvent e = false := by
    unfold handleDeleteTrace
    cases cf with
    | false => exact absurd hconfirm (by simp)
    | true =>
      rw [if_neg (by simp)]
      cases rok with
      | true =>
        exact ⟨[.setErr none, .storageRemove key, .filesDrop key], rfl, by simp [isOpEvent]⟩
      | false =>
        exact ⟨[.setErr none, .storageRemove key,
          .setErr (some "Failed to delete file. Please try again.")], rfl, by simp [isOpEvent]⟩
  obtain ⟨mid1, htr1, hmid1⟩ := hdl
  obtain ⟨mid2, htr2, hmid2⟩ := hde
  have hb1 := busyBlock key init mid1 hmid1
  have hb2 := busyBlock key init mid2 hmid2
  rw [htr1, htr2]
  exact ⟨rfl, hb1.1, hb1.2.1, hb1.2.2.1, hb1.2.2.2,
    rfl, hb2.1, hb2.2.1, hb2.2.2.1, hb2.2.2.2⟩

/-- Witness for C7 at a concrete failing download and a confirmed
successful delete over an empty initial set. -/
theorem c7_busy_state_discipline_witness :
    (handleDownloadTrace "pw123456" "k" ⟨none, fun _ _ => ""⟩).head? = some (.addOp "k") ∧
    "k" ∉ applyOps [] (handleDownloadTrace "pw123456" "k" ⟨none, fun _ _ => ""⟩) ∧
    rowDisabled (applyOps [] ((handleDownloadTrace "pw123456" "k" ⟨none, fun _ _ => ""⟩).dropLast))
      "k" = true ∧
    (handleDeleteTrace "k" ⟨true, true⟩).head? = some (.addOp "k") ∧
    "k" ∉ applyOps [] (handleDeleteTrace "k" ⟨true, true⟩) ∧
    rowDisabled (applyOps [] ((handleDeleteTrace "k" ⟨true, true⟩).dropLast)) "k" = true := by
  obtain ⟨h1, h2, _, h4, _, h6, h7, _, h9, _⟩ :=
    c7_busy_state_discipline "pw123456" "k" ⟨none, fun _ _ => ""⟩ ⟨true, true⟩ []
      (by decide) rfl
  exact ⟨h1, h2, h4, h6, h7, h9⟩

end Encrypto
